import Mathlib

/-!
Verification of the PINTS MCMC diagnostics module.

Shallow embedding of `pints/_diagnostics.py` (autocorrelation, the ESS
truncation rule, `ess_single_param`, `effective_sample_size`, the within and
between chain variances and `rhat`) and of the rhat column of
`pints/_mcmc/_results.py` (`make_summary`).

Arrays are modelled as lists over exact arithmetic (`ℚ`, with `ℝ` and
`Real.sqrt` where the source takes square roots).  A rank 3 numpy array with
`p` parameters is a list of chains whose cells are `Fin p → ℚ`; the numpy
axis wise broadcasting is then the pointwise `Pi` ring structure.  Division
follows the ambient Lean convention `t / 0 = 0`; the places where the python
source would produce non finite floats instead are spelled out at the
corresponding theorems.
-/

set_option maxHeartbeats 1000000

/-- Error taxonomy of the diagnostics interface (design document section 7).
The reference implementation signals the first four as `ValueError`; the last
two are demanded by the specification only. -/
inductive DiagError where
  | invalidShape
  | insufficientChains
  | invalidParameter
  | insufficientData
  | degenerateVariance
  | degenerateInput
deriving DecidableEq, Repr

/-- `np.mean` of a one dimensional array: sum divided by length. -/
def npMean {α : Type} [CommRing α] [Div α] (l : List α) : α :=
  l.sum / (l.length : α)

/-- `np.var(l, ddof=1)`: unbiased sample variance, denominator `length - 1`. -/
def npVar1 {α : Type} [CommRing α] [Div α] (l : List α) : α :=
  (l.map (fun x => (x - npMean l) * (x - npMean l))).sum / ((l.length - 1 : ℕ) : α)

/-- `np.var(l)` (ddof = 0): population variance, denominator `length`. -/
def npVar0 {α : Type} [CommRing α] [Div α] (l : List α) : α :=
  (l.map (fun x => (x - npMean l) * (x - npMean l))).sum / (l.length : α)

/-- `np.correlate(a, v, mode=full)`: the output has `len(a) + len(v) - 1`
entries and entry `k` sums `a[i] * v[i + len(v) - 1 - k]` over the indices
where both factors are in range. -/
def npCorrelateFull {α : Type} [CommRing α] (a v : List α) : List α :=
  (List.range (a.length + v.length - 1)).map fun (k : ℕ) =>
    ((List.range a.length).map fun (i : ℕ) =>
      if 0 ≤ (i : ℤ) + (v.length : ℤ) - 1 - (k : ℤ) ∧
          (i : ℤ) + (v.length : ℤ) - 1 - (k : ℤ) < (v.length : ℤ)
      then a.getD i 0 * v.getD ((i : ℤ) + (v.length : ℤ) - 1 - (k : ℤ)).toNat 0
      else 0).sum

/-- `autocorrelation(x)` from the source.  The source scales every element of
the centered sequence by `1 / (np.std(x) * np.sqrt(len(x)))` and then
correlates; correlation is bilinear, so this equals scaling every correlation
product by `1 / (np.std(x) ^ 2 * len(x)) = 1 / (npVar0 x * len(x))`, which
keeps the definition in exact rational arithmetic.  The theorem
`autocorrelation_cast` proves agreement with the direct real valued
transcription `autocorrelationReal`. -/
def autocorrelation (x : List ℚ) : List ℚ :=
  let c := x.map (fun t => t - npMean x)
  let d := npVar0 x * (x.length : ℚ)
  let r := (npCorrelateFull c c).map (fun t => t / d)
  r.drop (r.length / 2)

/-- Direct transcription of `autocorrelation` over the reals:
`x = (x - np.mean(x)) / (np.std(x) * np.sqrt(len(x)))`, with
`np.std = Real.sqrt npVar0`. -/
noncomputable def specScaled (x : List ℚ) : List ℝ :=
  let xr : List ℝ := x.map Rat.cast
  xr.map (fun t =>
    (t - npMean xr) / (Real.sqrt (npVar0 xr) * Real.sqrt (xr.length : ℝ)))

/-- `autocorrelation` transcribed over `ℝ`, scaling before correlating exactly
as the python source does. -/
noncomputable def autocorrelationReal (x : List ℚ) : List ℝ :=
  let r := npCorrelateFull (specScaled x) (specScaled x)
  r.drop (r.length / 2)

/-- Loop body of `autocorrelate_negative`: `T` is the running counter, each
entry strictly below zero returns `T - 1`, otherwise `T` is incremented. -/
def autocorrelateNegativeAux (T : ℕ) : List ℚ → ℕ
  | [] => T
  | a :: rest => if a < 0 then T - 1 else autocorrelateNegativeAux (T + 1) rest

/-- `autocorrelate_negative(autocorrelation)` from the source: `T` starts at
`1` and the loop runs over the sequence. -/
def autocorrelate_negative (ac : List ℚ) : ℕ :=
  autocorrelateNegativeAux 1 ac

/-- `ess_single_param(x)` from the source:
`n / (1 + 2 * np.sum(rho[0:T]))`. -/
def ess_single_param (x : List ℚ) : ℚ :=
  let rho := autocorrelation x
  let T := autocorrelate_negative rho
  (x.length : ℚ) / (1 + 2 * (rho.take T).sum)

/-- Variant of `ess_single_param` whose truncation lag is first clamped to the
length of the input sequence (claim C10). -/
def essSingleParamClamped (x : List ℚ) : ℚ :=
  let rho := autocorrelation x
  let T := min (autocorrelate_negative rho) x.length
  (x.length : ℚ) / (1 + 2 * (rho.take T).sum)

/-- Model of the numpy arrays accepted by the diagnostics: ranks 0 to 3.  A
rank 3 array stores, for each chain, a list of samples whose cells are the
`p` parameter values. -/
inductive NDArray where
  | d0 (x : ℚ)
  | d1 (v : List ℚ)
  | d2 (v : List (List ℚ))
  | d3 (p : ℕ) (v : List (List (Fin p → ℚ)))

/-- `a.ndim`. -/
def NDArray.ndim : NDArray → ℕ
  | .d0 _ => 0
  | .d1 _ => 1
  | .d2 _ => 2
  | .d3 _ _ => 3

/-- `a.shape[0]`. -/
def NDArray.shape0 : NDArray → ℕ
  | .d0 _ => 0
  | .d1 v => v.length
  | .d2 v => v.length
  | .d3 _ v => v.length

/-- `chains.shape[1]`: numpy arrays are rectangular, so the second shape entry
is the length of the first row. -/
def shape1 {α : Type} (chains : List (List α)) : ℕ :=
  (chains.headD []).length

/-- `samples[:, i]`: column `i` of a rank 2 array. -/
def npColumn (v : List (List ℚ)) (i : ℕ) : List ℚ :=
  v.map (fun r => r.getD i 0)

/-- `effective_sample_size(samples)` from the source: shape unpacking fails
for every rank other than 2 (the `ValueError` reported as a 2d requirement),
then `n_samples < 2` is rejected, then `ess_single_param` is applied to every
column. -/
def effective_sample_size (samples : NDArray) : Except DiagError (List ℚ) :=
  match samples with
  | .d2 v =>
    if v.length < 2 then .error .insufficientData
    else .ok ((List.range (shape1 v)).map fun i => ess_single_param (npColumn v i))
  | _ => .error .invalidShape

/-- `_within(chains)` from the source: `np.mean(np.var(chains, axis=1,
ddof=1), axis=0)`. -/
def _within {α : Type} [CommRing α] [Div α] (chains : List (List α)) : α :=
  npMean (chains.map npVar1)

/-- `_between(chains)` from the source: `chains.shape[1] *
np.var(np.mean(chains, axis=1), axis=0, ddof=1)`. -/
def _between {α : Type} [CommRing α] [Div α] (chains : List (List α)) : α :=
  (shape1 chains : α) * npVar1 (chains.map npMean)

/-- `int(n * warm_up)`: on the reachable path the validation has already
forced `warm_up ∈ [0, 1]`, so the python truncation toward zero is the
floor. -/
def trimCount (n : ℕ) (warm_up : ℚ) : ℕ :=
  (⌊(n : ℚ) * warm_up⌋).toNat

/-- The final combination of `rhat`: `(n - 1) / n + b / (w * n)`. -/
def rhatCombine {α : Type} [CommRing α] [Div α] (n : ℕ) (w b : α) : α :=
  ((n - 1 : ℕ) : α) / (n : α) + b / (w * (n : α))

/-- The body of `rhat` after the rank check: chain count and warm up
validation, warm up trimming, halving with the minimum length check, chain
splitting and the two variance computations.  Returns the split length `n`
together with `W` and `B`.  The final numpy float division never raises
`ZeroDivisionError`, so no error is produced past this point. -/
def rhatCore {α : Type} [CommRing α] [Div α] (chains : List (List α))
    (warm_up : ℚ) : Except DiagError (ℕ × α × α) :=
  if chains.length < 2 then .error .insufficientChains
  else if 1 < warm_up ∨ warm_up < 0 then .error .invalidParameter
  else
    let trimmed := chains.map (List.drop (trimCount (shape1 chains) warm_up))
    let n := shape1 trimmed / 2
    if n < 2 then .error .insufficientData
    else
      let split := trimmed.map (List.take n) ++
        trimmed.map (fun c => c.drop (c.length - n))
      .ok (n, _within split, _between split)

/-- Result of `rhat` before the square root: a scalar for a rank 2 input, a
`p` vector for a rank 3 input. -/
abbrev RhatOut := ℚ ⊕ ((p : ℕ) × (Fin p → ℚ))

/-- Result of `rhat`: a real scalar or a real `p` vector. -/
abbrev RhatOutR := ℝ ⊕ ((p : ℕ) × (Fin p → ℝ))

/-- `rhat(chains, warm_up)` up to (but not including) the final `np.sqrt`:
the rank check dispatches, then `rhatCore` runs and the results are combined
with `rhatCombine` (for rank 3 via the pointwise `Pi` arithmetic, the model
of numpy broadcasting). -/
def rhatQ (a : NDArray) (warm_up : ℚ) : Except DiagError RhatOut :=
  match a with
  | .d2 v => (rhatCore v warm_up).map fun r => .inl (rhatCombine r.1 r.2.1 r.2.2)
  | .d3 p v => (rhatCore v warm_up).map fun r => .inr ⟨p, rhatCombine r.1 r.2.1 r.2.2⟩
  | _ => .error .invalidShape

/-- `rhat(chains, warm_up)` from the source, square root included. -/
noncomputable def rhat (a : NDArray) (warm_up : ℚ) : Except DiagError RhatOutR :=
  (rhatQ a warm_up).map fun r =>
    match r with
    | .inl q => .inl (Real.sqrt (q : ℝ))
    | .inr ⟨p, v⟩ => .inr ⟨p, fun j => Real.sqrt ((v j : ℚ) : ℝ)⟩

/-- Specification reading of the warm up trimming and halving (4.7 steps 2
and 3): the split pseudo chain length produced by a rank 2 or rank 3 chains
argument. -/
def nSplit {α : Type} (v : List (List α)) (wu : ℚ) : ℕ :=
  shape1 (v.map (List.drop (trimCount (shape1 v) wu))) / 2

/-- Specification reading of the 2m split pseudo chains: first halves of the
trimmed chains stacked on their last halves. -/
def splitChains {α : Type} (v : List (List α)) (wu : ℚ) : List (List α) :=
  let trimmed := v.map (List.drop (trimCount (shape1 v) wu))
  let n := shape1 trimmed / 2
  trimmed.map (List.take n) ++ trimmed.map (fun c => c.drop (c.length - n))

/-- Specification reading of a mean. -/
def specMean (l : List ℚ) : ℚ := l.sum / (l.length : ℚ)

/-- Specification reading of the unbiased sample variance, denominator
`length - 1`. -/
def specVarUnbiased (l : List ℚ) : ℚ :=
  (l.map (fun t => (t - specMean l) ^ 2)).sum / ((l.length : ℚ) - 1)

/-- Specification reading of `W` (4.5): the mean across chains of each chains
unbiased sample variance. -/
def specW (chains : List (List ℚ)) : ℚ :=
  (chains.map specVarUnbiased).sum / (chains.length : ℚ)

/-- Specification reading of `B` (4.6): the split length times the unbiased
variance of the within chain means. -/
def specB (n : ℕ) (chains : List (List ℚ)) : ℚ :=
  (n : ℚ) * specVarUnbiased (chains.map specMean)

/-- Specification reading of the quantity under the square root in 4.7 step
6: `(n - 1) / n + B / (W * n)`. -/
def specRhatVal (n : ℕ) (chains : List (List ℚ)) : ℚ :=
  ((n : ℚ) - 1) / (n : ℚ) + specB n chains / (specW chains * (n : ℚ))

/-- Parameter slice `j` of a rank 3 chain collection. -/
def colList {p : ℕ} (j : Fin p) (chains : List (List (Fin p → ℚ))) :
    List (List ℚ) :=
  chains.map (List.map (fun cell => cell j))

/-- Modelled from the spec: `make_summary` calls
`diagnostics.rhat_all_params`, which is absent from the diagnostics source
file (only this caller survives).  Specification section 4.8 says the summary
computes the rhat value of every parameter via the section 4.7 estimator, so
the model runs the rank 3 rhat pipeline with no warm up and takes the square
root per parameter. -/
noncomputable def rhat_all_params (p : ℕ) (chains : List (List (Fin p → ℚ))) :
    Except DiagError (Fin p → ℝ) :=
  (rhatCore chains 0).map fun r => fun j =>
    Real.sqrt (((rhatCombine r.1 (r.2.1 : Fin p → ℚ) r.2.2) j : ℝ))

/-- A cell of the rhat column of the summary: a computed value or the
explicit not applicable marker. -/
inductive RhatCell where
  | NA
  | val (x : ℝ)

/-- The rhat column of `MCMCResults.make_summary`: with more than one chain
the values come from `rhat_all_params`, otherwise the `"NA"` marker is
repeated for every parameter (`np.repeat("NA", self._num_params)`). -/
noncomputable def makeSummaryRhat (p : ℕ) (chains : List (List (Fin p → ℚ))) :
    Except DiagError (Fin p → RhatCell) :=
  if 1 < chains.length then
    (rhat_all_params p chains).map fun v => fun j => RhatCell.val (v j)
  else
    .ok fun _ => RhatCell.NA

/-! ### General helper lemmas -/

theorem autocorrelateNegativeAux_eq (T : ℕ) (ac : List ℚ) :
    autocorrelateNegativeAux T ac =
      if ∃ a ∈ ac, a < 0
      then (T + (ac.takeWhile fun a => decide (0 ≤ a)).length) - 1
      else T + ac.length := by
  induction ac generalizing T with
  | nil => simp [autocorrelateNegativeAux]
  | cons a rest ih =>
    rw [autocorrelateNegativeAux]
    by_cases h : a < 0
    · have hna : ¬ (0 : ℚ) ≤ a := not_le.mpr h
      simp [h, hna, List.takeWhile_cons]
    · have ha : (0 : ℚ) ≤ a := not_lt.mp h
      rw [if_neg h, ih]
      by_cases hr : ∃ b ∈ rest, b < 0
      · rw [if_pos hr, if_pos (by simp [h, hr])]
        rw [List.takeWhile_cons_of_pos (by simpa using ha)]
        simp only [List.length_cons]
        omega
      · rw [if_neg hr, if_neg (by simp [h, hr])]
        simp only [List.length_cons]
        omega

theorem npCorrelateFull_length {α : Type} [CommRing α] (a v : List α) :
    (npCorrelateFull a v).length = a.length + v.length - 1 := by
  simp [npCorrelateFull]

theorem autocorrelation_length (x : List ℚ) :
    (autocorrelation x).length = x.length := by
  simp only [autocorrelation, npCorrelateFull, List.length_drop,
    List.length_map, List.length_range]
  omega

theorem getD_replicate_zero (n i : ℕ) :
    (List.replicate n (0 : ℚ)).getD i 0 = 0 := by
  induction n generalizing i with
  | zero => simp
  | succ m ih =>
    cases i with
    | zero => simp [List.replicate_succ]
    | succ k => simp [List.replicate_succ, ih]

theorem npCorrelateFull_zero (n : ℕ) :
    npCorrelateFull (List.replicate n (0 : ℚ)) (List.replicate n 0) =
      List.replicate (n + n - 1) 0 := by
  simp only [npCorrelateFull, List.length_replicate]
  rw [List.eq_replicate_iff]
  constructor
  · simp
  · intro b hb
    simp only [List.mem_map] at hb
    obtain ⟨k, _, hk⟩ := hb
    rw [← hk]
    have hz : ∀ i ∈ List.range n,
        (if 0 ≤ (i : ℤ) + (n : ℤ) - 1 - (k : ℤ) ∧
            (i : ℤ) + (n : ℤ) - 1 - (k : ℤ) < (n : ℤ)
        then (List.replicate n (0 : ℚ)).getD i 0 *
          (List.replicate n (0 : ℚ)).getD
            ((i : ℤ) + (n : ℤ) - 1 - (k : ℤ)).toNat 0
        else 0) = 0 := by
      intro i _
      rw [getD_replicate_zero]
      simp
    rw [List.map_congr_left hz]
    simp

theorem npMean_replicate (n : ℕ) (c : ℚ) (hn : 0 < n) :
    npMean (List.replicate n c) = c := by
  have hne : ((n : ℚ)) ≠ 0 := Nat.cast_ne_zero.mpr hn.ne'
  simp [npMean, List.sum_replicate, nsmul_eq_mul]
  field_simp

theorem trimCount_zero (n : ℕ) : trimCount n 0 = 0 := by
  simp [trimCount]

theorem trimCount_one (n : ℕ) : trimCount n 1 = n := by
  simp [trimCount]

theorem shape1_map_drop {α : Type} (v : List (List α)) (k : ℕ) (hv : v ≠ []) :
    shape1 (v.map (List.drop k)) = shape1 v - k := by
  cases v with
  | nil => exact absurd rfl hv
  | cons h t => simp [shape1]

theorem nSplit_eq {α : Type} (v : List (List α)) (wu : ℚ) (hv : v ≠ []) :
    nSplit v wu = (shape1 v - trimCount (shape1 v) wu) / 2 := by
  rw [nSplit, shape1_map_drop v _ hv]

/-! ### Lemmas unfolding the rhat pipeline -/

theorem rhatCore_insufficientChains {α : Type} [CommRing α] [Div α]
    (chains : List (List α)) (wu : ℚ) (h : chains.length < 2) :
    rhatCore chains wu = .error .insufficientChains := by
  rw [rhatCore, if_pos h]

theorem rhatCore_invalidParameter {α : Type} [CommRing α] [Div α]
    (chains : List (List α)) (wu : ℚ) (h2 : 2 ≤ chains.length)
    (h : 1 < wu ∨ wu < 0) :
    rhatCore chains wu = .error .invalidParameter := by
  rw [rhatCore, if_neg (not_lt.mpr h2), if_pos h]

theorem rhatCore_insufficientData {α : Type} [CommRing α] [Div α]
    (chains : List (List α)) (wu : ℚ) (h2 : 2 ≤ chains.length)
    (h0 : 0 ≤ wu) (h1 : wu ≤ 1) (hn : nSplit chains wu < 2) :
    rhatCore chains wu = .error .insufficientData := by
  rw [rhatCore, if_neg (not_lt.mpr h2),
    if_neg (by push_neg; exact ⟨h1, h0⟩)]
  exact if_pos hn

theorem rhatCore_eq_ok {α : Type} [CommRing α] [Div α]
    (chains : List (List α)) (wu : ℚ) (h2 : 2 ≤ chains.length)
    (h0 : 0 ≤ wu) (h1 : wu ≤ 1) (hn : 2 ≤ nSplit chains wu) :
    rhatCore chains wu = .ok (nSplit chains wu,
      _within (splitChains chains wu), _between (splitChains chains wu)) := by
  rw [rhatCore, if_neg (not_lt.mpr h2),
    if_neg (by push_neg; exact ⟨h1, h0⟩)]
  exact if_neg (not_lt.mpr hn)

/-! ### Claims about the ESS truncation rule -/

/-- C3 (amended): the truncation lag returned by `autocorrelate_negative`
equals the count of consecutive leading lags that are not strictly negative
(a lag equal to zero counts as part of the run); when no strictly negative
value occurs the function returns the full sequence length PLUS ONE, not the
length itself (the loop counter starts at 1 and is returned unchanged). -/
theorem autocorrelate_negative_truncation_spec (ac : List ℚ) :
    autocorrelate_negative ac =
      if ∃ a ∈ ac, a < 0
      then (ac.takeWhile fun a => decide (0 ≤ a)).length
      else ac.length + 1 := by
  rw [autocorrelate_negative, autocorrelateNegativeAux_eq]
  by_cases h : ∃ a ∈ ac, a < 0
  · rw [if_pos h, if_pos h]
    omega
  · rw [if_neg h, if_neg h]
    omega

/-- C3 counterexample: on the all positive sequence `[1, 1]` the code returns
`3`, while the claim says the truncation lag equals the sequence length `2`
when no strictly negative value occurs. -/
theorem autocorrelate_negative_full_length_counterexample :
    autocorrelate_negative [1, 1] = 3 ∧ ([(1 : ℚ), 1]).length = 2 := by
  decide

/-- C10: `ess_single_param` returns the same value as the variant whose
truncation lag is clamped to the sequence length first: `List.take` never
reads past the end of the autocorrelation sequence (which has the same length
as the input), so the sum over `rho[0:T]` uses at most `n` terms even when
`autocorrelate_negative` returns `n + 1`. -/
theorem ess_truncation_clamp_equiv (x : List ℚ) :
    ess_single_param x = essSingleParamClamped x := by
  simp only [ess_single_param, essSingleParamClamped]
  have h := autocorrelation_length x
  rcases le_or_lt (autocorrelate_negative (autocorrelation x)) x.length with
    hle | hlt
  · rw [min_eq_left hle]
  · rw [min_eq_right hlt.le]
    rw [List.take_of_length_le (by omega), List.take_of_length_le (by omega)]

/-! ### Claims about degenerate inputs -/

/-- C5 (code bug): for a constant sequence the reference `autocorrelation`
does not raise any error.  The normalizing factor `np.std(x) * sqrt(n)` is
zero (equivalently `npVar0 = 0` below), the python code divides by it and
returns an array of NaN values; the function body contains no raise statement
and no `DegenerateInputError` exists in the code.  In the exact arithmetic
model the division by zero collapses to the zero list of the same length. -/
theorem autocorrelation_constant_no_error (n : ℕ) (c : ℚ) (hn : 0 < n) :
    npVar0 (List.replicate n c) = 0 ∧
    autocorrelation (List.replicate n c) = List.replicate n 0 := by
  have hmean := npMean_replicate n c hn
  have hcent : (List.replicate n c).map
      (fun t => t - npMean (List.replicate n c)) = List.replicate n 0 := by
    simp [hmean, List.map_replicate]
  have hvar : npVar0 (List.replicate n c) = 0 := by
    simp only [npVar0, hmean]
    have hmap : (List.replicate n c).map
        (fun x => (x - c) * (x - c)) = List.replicate n 0 := by
      simp [List.map_replicate]
    rw [hmap]
    simp [List.sum_replicate]
  refine ⟨hvar, ?_⟩
  simp only [autocorrelation, hcent, npCorrelateFull_zero, List.length_replicate]
  rw [List.map_replicate]
  rw [List.drop_replicate]
  rw [List.eq_replicate_iff]
  constructor
  · simp only [List.length_replicate]
    omega
  · intro b hb
    rw [List.eq_of_mem_replicate hb]
    simp

/-- Witness for C5 at the concrete constant sequence `[3, 3, 3]`. -/
theorem autocorrelation_constant_no_error_witness :
    0 < 3 ∧ (npVar0 (List.replicate 3 (3 : ℚ)) = 0 ∧
      autocorrelation (List.replicate 3 (3 : ℚ)) = List.replicate 3 0) :=
  ⟨by decide, autocorrelation_constant_no_error 3 3 (by decide)⟩

/-- C6 (code bug): on two constant chains the mean within chain variance `W`
is zero, yet `rhat` reaches the final combination and returns a value instead
of failing.  The python guard is `except ZeroDivisionError`, which numpy
float division never raises: numpy evaluates `b / (w * n)` with `w = 0` to
`inf` (plus a runtime warning) and `rhat` silently returns `inf`.  In this
exact model the pipeline result is `.ok` with `W = 0` (never
`.error .degenerateVariance`); the combination value shown uses the ambient
`t / 0 = 0` convention where numpy would produce `inf`. -/
theorem rhat_zero_within_variance_no_error :
    rhatCore ([[1, 1, 1, 1], [2, 2, 2, 2]] : List (List ℚ)) 0 =
      .ok (2, 0, 2 / 3) ∧
    rhat (.d2 [[1, 1, 1, 1], [2, 2, 2, 2]]) 0 =
      .ok (.inl (Real.sqrt ((rhatCombine 2 (0 : ℚ) (2 / 3) : ℚ) : ℝ))) := by
  have h : rhatCore ([[1, 1, 1, 1], [2, 2, 2, 2]] : List (List ℚ)) 0 =
      .ok (2, 0, 2 / 3) := by
    norm_num [rhatCore, trimCount, shape1, _within, _between, npMean, npVar1]
  refine ⟨h, ?_⟩
  rw [rhat, rhatQ, h]
  rfl

/-! ### Claims about validation -/

/-- C7: `rhat` rejects rank other than 2 or 3 with the invalid shape error,
then fewer than 2 chains with the insufficient chains error, then a warm up
fraction outside `[0, 1]` with the invalid parameter error; the hypotheses of
the three conjuncts encode that each check fires only when the earlier checks
pass, i.e. each failure is raised at its point of detection before any
computation. -/
theorem rhat_validation_spec (a : NDArray) (wu : ℚ) :
    (a.ndim ≠ 2 ∧ a.ndim ≠ 3 → rhat a wu = .error .invalidShape) ∧
    ((a.ndim = 2 ∨ a.ndim = 3) → a.shape0 < 2 →
      rhat a wu = .error .insufficientChains) ∧
    ((a.ndim = 2 ∨ a.ndim = 3) → 2 ≤ a.shape0 → (1 < wu ∨ wu < 0) →
      rhat a wu = .error .invalidParameter) := by
  cases a with
  | d0 x =>
    refine ⟨fun _ => rfl, fun h _ => ?_, fun h _ _ => ?_⟩ <;>
      simp [NDArray.ndim] at h
  | d1 v =>
    refine ⟨fun _ => rfl, fun h _ => ?_, fun h _ _ => ?_⟩ <;>
      simp [NDArray.ndim] at h
  | d2 v =>
    refine ⟨fun h => absurd rfl h.1, fun _ hm => ?_, fun _ hm hwu => ?_⟩
    · simp [rhat, rhatQ, rhatCore_insufficientChains v wu hm, Except.map]
    · simp [rhat, rhatQ, rhatCore_invalidParameter v wu hm hwu, Except.map]
  | d3 p v =>
    refine ⟨fun h => absurd rfl h.2, fun _ hm => ?_, fun _ hm hwu => ?_⟩
    · simp [rhat, rhatQ, rhatCore_insufficientChains v wu hm, Except.map]
    · simp [rhat, rhatQ, rhatCore_invalidParameter v wu hm hwu, Except.map]

/-- Witness for C7: a rank 1 array, a single chain, and an out of range warm
up each produce the corresponding error. -/
theorem rhat_validation_spec_witness :
    rhat (.d1 [1, 2, 3]) 0 = .error .invalidShape ∧
    rhat (.d2 [[1, 2, 3]]) 0 = .error .insufficientChains ∧
    rhat (.d2 [[1, 2], [3, 4]]) 2 = .error .invalidParameter :=
  ⟨(rhat_validation_spec (.d1 [1, 2, 3]) 0).1 (by decide),
   (rhat_validation_spec (.d2 [[1, 2, 3]]) 0).2.1 (by decide) (by decide),
   (rhat_validation_spec (.d2 [[1, 2], [3, 4]]) 2).2.2 (by decide) (by decide)
     (by decide)⟩

/-- C8: past validation, `rhat` drops the first `int(warm_up * n)` samples,
halves the remainder, and fails with the insufficient data error exactly when
the halved length is below 2; with `warm_up = 1` every sample is dropped and
the error always fires.  Stated for rank 2 and rank 3 inputs. -/
theorem rhat_insufficient_data_spec :
    (∀ (v : List (List ℚ)) (wu : ℚ), 2 ≤ v.length → 0 ≤ wu → wu ≤ 1 →
      (∀ c ∈ v, c.length = shape1 v) →
      ((rhat (.d2 v) wu = .error .insufficientData ↔
          (shape1 v - trimCount (shape1 v) wu) / 2 < 2) ∧
        (wu = 1 → rhat (.d2 v) wu = .error .insufficientData))) ∧
    (∀ (p : ℕ) (v : List (List (Fin p → ℚ))) (wu : ℚ),
      2 ≤ v.length → 0 ≤ wu → wu ≤ 1 →
      (∀ c ∈ v, c.length = shape1 v) →
      ((rhat (.d3 p v) wu = .error .insufficientData ↔
          (shape1 v - trimCount (shape1 v) wu) / 2 < 2) ∧
        (wu = 1 → rhat (.d3 p v) wu = .error .insufficientData))) := by
  constructor
  · intro v wu h2 h0 h1 _
    have hv : v ≠ [] := by
      intro h
      rw [h] at h2
      simp at h2
    have hns := nSplit_eq v wu hv
    constructor
    · constructor
      · intro herr
        by_contra hlt
        push_neg at hlt
        rw [← hns] at hlt
        have hok := rhatCore_eq_ok v wu h2 h0 h1 hlt
        simp [rhat, rhatQ, hok, Except.map] at herr
      · intro hlt
        rw [← hns] at hlt
        have herr := rhatCore_insufficientData v wu h2 h0 h1 hlt
        simp [rhat, rhatQ, herr, Except.map]
    · intro hwu
      subst hwu
      have hlt : nSplit v 1 < 2 := by
        rw [hns, trimCount_one]
        omega
      have herr := rhatCore_insufficientData v 1 h2 (by norm_num) (le_refl 1) hlt
      simp [rhat, rhatQ, herr, Except.map]
  · intro p v wu h2 h0 h1 _
    have hv : v ≠ [] := by
      intro h
      rw [h] at h2
      simp at h2
    have hns := nSplit_eq v wu hv
    constructor
    · constructor
      · intro herr
        by_contra hlt
        push_neg at hlt
        rw [← hns] at hlt
        have hok := rhatCore_eq_ok v wu h2 h0 h1 hlt
        simp [rhat, rhatQ, hok, Except.map] at herr
      · intro hlt
        rw [← hns] at hlt
        have herr := rhatCore_insufficientData v wu h2 h0 h1 hlt
        simp [rhat, rhatQ, herr, Except.map]
    · intro hwu
      subst hwu
      have hlt : nSplit v 1 < 2 := by
        rw [hns, trimCount_one]
        omega
      have herr := rhatCore_insufficientData v 1 h2 (by norm_num) (le_refl 1) hlt
      simp [rhat, rhatQ, herr, Except.map]

/-- Witness for C8: with `warm_up = 1` both a rank 2 and a rank 3 input
produce the insufficient data error. -/
theorem rhat_insufficient_data_spec_witness :
    rhat (.d2 [[1, 2, 3, 4], [5, 4, 3, 2]]) 1 = .error .insufficientData ∧
    rhat (.d3 1 [[fun _ => 1, fun _ => 2], [fun _ => 3, fun _ => 4]]) 1 =
      .error .insufficientData :=
  ⟨(rhat_insufficient_data_spec.1 [[1, 2, 3, 4], [5, 4, 3, 2]] 1 (by decide)
      (by decide) (by decide) (by decide)).2 rfl,
   (rhat_insufficient_data_spec.2 1 [[fun _ => 1, fun _ => 2],
      [fun _ => 3, fun _ => 4]] 1 (by decide) (by decide) (by decide)
      (by decide)).2 rfl⟩

/-! ### Claims about the multi parameter ESS and the summary -/

theorem getD_map_range (f : ℕ → ℚ) (p i : ℕ) (h : i < p) :
    ((List.range p).map f).getD i 0 = f i := by
  rw [List.getD_eq_getElem?_getD, List.getElem?_map, List.getElem?_range h]
  rfl

/-- C2: on a rectangular rank 2 matrix with at least two rows,
`effective_sample_size` returns one value per column, in column order, the
i-th being `ess_single_param` of column i; any other rank produces the
invalid shape error and fewer than two rows produce the insufficient data
error. -/
theorem effective_sample_size_spec :
    (∀ (v : List (List ℚ)) (p : ℕ), shape1 v = p → (∀ c ∈ v, c.length = p) →
      2 ≤ v.length →
      ∃ l, effective_sample_size (.d2 v) = .ok l ∧ l.length = p ∧
        ∀ i, i < p → l.getD i 0 = ess_single_param (npColumn v i)) ∧
    (∀ a : NDArray, a.ndim ≠ 2 →
      effective_sample_size a = .error .invalidShape) ∧
    (∀ v : List (List ℚ), v.length < 2 →
      effective_sample_size (.d2 v) = .error .insufficientData) := by
  refine ⟨?_, ?_, ?_⟩
  · intro v p hp _ h2
    refine ⟨(List.range (shape1 v)).map fun i => ess_single_param (npColumn v i),
      ?_, ?_, ?_⟩
    · rw [effective_sample_size, if_neg (not_lt.mpr h2)]
    · simp [hp]
    · intro i hi
      rw [hp]
      exact getD_map_range _ p i hi
  · intro a ha
    cases a with
    | d0 x => rfl
    | d1 v => rfl
    | d2 v => exact absurd rfl ha
    | d3 p v => rfl
  · intro v h2
    rw [effective_sample_size, if_pos h2]

/-- Witness for C2 on a 3 by 2 matrix, a rank 1 array and a 1 by 2 matrix. -/
theorem effective_sample_size_spec_witness :
    (∃ l, effective_sample_size (.d2 [[1, 2], [2, 1], [3, 4]]) = .ok l ∧
      l.length = 2 ∧ ∀ i, i < 2 →
        l.getD i 0 = ess_single_param (npColumn [[1, 2], [2, 1], [3, 4]] i)) ∧
    effective_sample_size (.d1 [1]) = .error .invalidShape ∧
    effective_sample_size (.d2 [[1, 2]]) = .error .insufficientData :=
  ⟨effective_sample_size_spec.1 [[1, 2], [2, 1], [3, 4]] 2 (by decide)
      (by decide) (by decide),
   effective_sample_size_spec.2.1 (.d1 [1]) (by decide),
   effective_sample_size_spec.2.2 [[1, 2]] (by decide)⟩

theorem rhat_d3_eq_all_params (p : ℕ) (chains : List (List (Fin p → ℚ))) :
    rhat (.d3 p chains) 0 =
      (rhat_all_params p chains).map fun w => .inr ⟨p, w⟩ := by
  rw [rhat, rhatQ, rhat_all_params]
  cases rhatCore chains (0 : ℚ) with
  | error e => rfl
  | ok r => rfl

/-- C9: the rhat column of the summary is produced by `rhat_all_params`
(modelled from the spec as the section 4.7 rank 3 estimator, as shown by the
first conjunct) whenever more than one chain is supplied, and is the
not applicable marker for every parameter when exactly one chain is
supplied. -/
theorem make_summary_rhat_spec (p : ℕ) (chains : List (List (Fin p → ℚ))) :
    (rhat (.d3 p chains) 0 =
      (rhat_all_params p chains).map fun w => .inr ⟨p, w⟩) ∧
    (2 ≤ chains.length →
      makeSummaryRhat p chains =
        (rhat_all_params p chains).map fun v => fun j => RhatCell.val (v j)) ∧
    (chains.length = 1 →
      makeSummaryRhat p chains = .ok fun _ => RhatCell.NA) := by
  refine ⟨rhat_d3_eq_all_params p chains, fun h2 => ?_, fun h1 => ?_⟩
  · rw [makeSummaryRhat, if_pos (by omega)]
  · rw [makeSummaryRhat, if_neg (by omega)]

/-- Witness for C9 with one chain (not applicable markers) and two chains
(computed column). -/
theorem make_summary_rhat_spec_witness :
    makeSummaryRhat 1 [[fun _ => (3 : ℚ)]] = .ok (fun _ => RhatCell.NA) ∧
    makeSummaryRhat 1 [[fun _ => (1 : ℚ), fun _ => 2],
        [fun _ => 3, fun _ => 4]] =
      (rhat_all_params 1 [[fun _ => (1 : ℚ), fun _ => 2],
        [fun _ => 3, fun _ => 4]]).map
          (fun v => fun j => RhatCell.val (v j)) :=
  ⟨(make_summary_rhat_spec 1 [[fun _ => (3 : ℚ)]]).2.2 (by decide),
   (make_summary_rhat_spec 1 [[fun _ => (1 : ℚ), fun _ => 2],
      [fun _ => 3, fun _ => 4]]).2.1 (by decide)⟩
theorem getD_map_of_zero {α β : Type} [CommRing α] [CommRing β] {f : α → β}
    (hf : f 0 = 0) (l : List α) (i : ℕ) :
    (l.map f).getD i 0 = f (l.getD i 0) := by
  rw [List.getD_eq_getElem?_getD, List.getD_eq_getElem?_getD, List.getElem?_map]
  cases l[i]? with
  | none => simp [hf]
  | some t => rfl

theorem list_sum_map_cast (l : List ℚ) :
    (l.map (Rat.cast : ℚ → ℝ)).sum = ((l.sum : ℚ) : ℝ) := by
  induction l with
  | nil => simp
  | cons a t ih => rw [List.map_cons, List.sum_cons, List.sum_cons, ih, Rat.cast_add]

theorem npMean_map_cast (x : List ℚ) :
    npMean (x.map (Rat.cast : ℚ → ℝ)) = ((npMean x : ℚ) : ℝ) := by
  rw [npMean, npMean, list_sum_map_cast, List.length_map, Rat.cast_div,
    Rat.cast_natCast]

theorem npVar0_map_cast (x : List ℚ) :
    npVar0 (x.map (Rat.cast : ℚ → ℝ)) = ((npVar0 x : ℚ) : ℝ) := by
  rw [npVar0, npVar0, npMean_map_cast, List.length_map, List.map_map,
    Rat.cast_div, Rat.cast_natCast, ← list_sum_map_cast, List.map_map]
  congr 1
  refine congrArg List.sum ?_
  apply List.map_congr_left
  intro t _
  simp only [Function.comp_apply]
  push_cast
  ring

theorem npVar0_nonneg (l : List ℝ) : 0 ≤ npVar0 l := by
  apply div_nonneg _ (Nat.cast_nonneg _)
  apply List.sum_nonneg
  intro t ht
  obtain ⟨u, _, hu⟩ := List.mem_map.mp ht
  rw [← hu]
  exact mul_self_nonneg _

theorem npCorrelateFull_map_cast (a v : List ℚ) :
    npCorrelateFull (a.map (Rat.cast : ℚ → ℝ)) (v.map (Rat.cast : ℚ → ℝ)) =
      (npCorrelateFull a v).map (Rat.cast : ℚ → ℝ) := by
  simp only [npCorrelateFull, List.length_map, List.map_map]
  apply List.map_congr_left
  intro k _
  simp only [Function.comp_apply]
  rw [← list_sum_map_cast, List.map_map]
  refine congrArg List.sum ?_
  apply List.map_congr_left
  intro i _
  simp only [Function.comp_apply]
  rw [apply_ite (Rat.cast : ℚ → ℝ)]
  by_cases h : 0 ≤ (i : ℤ) + (v.length : ℤ) - 1 - (k : ℤ) ∧
      (i : ℤ) + (v.length : ℤ) - 1 - (k : ℤ) < (v.length : ℤ)
  · rw [if_pos h, if_pos h, getD_map_of_zero Rat.cast_zero,
      getD_map_of_zero Rat.cast_zero, Rat.cast_mul]
  · rw [if_neg h, if_neg h, Rat.cast_zero]

theorem npCorrelateFull_map_mul (c : List ℝ) (e : ℝ) :
    npCorrelateFull (c.map (fun t => t * e)) (c.map (fun t => t * e)) =
      (npCorrelateFull c c).map (fun t => t * (e * e)) := by
  simp only [npCorrelateFull, List.length_map, List.map_map]
  apply List.map_congr_left
  intro k _
  simp only [Function.comp_apply]
  rw [← List.sum_map_mul_right]
  refine congrArg List.sum ?_
  apply List.map_congr_left
  intro i _
  rw [ite_mul]
  by_cases h : 0 ≤ (i : ℤ) + (c.length : ℤ) - 1 - (k : ℤ) ∧
      (i : ℤ) + (c.length : ℤ) - 1 - (k : ℤ) < (c.length : ℤ)
  · rw [if_pos h, if_pos h, getD_map_of_zero (zero_mul e),
      getD_map_of_zero (zero_mul e)]
    ring
  · rw [if_neg h, if_neg h, zero_mul]

theorem specScaled_eq (x : List ℚ) :
    specScaled x =
      ((x.map (fun t => t - npMean x)).map (Rat.cast : ℚ → ℝ)).map
        (fun t => t *
          (Real.sqrt ((npVar0 x : ℚ) : ℝ) * Real.sqrt (x.length : ℝ))⁻¹) := by
  simp only [specScaled, npMean_map_cast, npVar0_map_cast, List.length_map,
    List.map_map]
  apply List.map_congr_left
  intro t _
  simp only [Function.comp_apply]
  rw [div_eq_mul_inv, Rat.cast_sub]

theorem scale_sq (x : List ℚ) :
    (Real.sqrt ((npVar0 x : ℚ) : ℝ) * Real.sqrt (x.length : ℝ))⁻¹ *
      (Real.sqrt ((npVar0 x : ℚ) : ℝ) * Real.sqrt (x.length : ℝ))⁻¹ =
      (((npVar0 x * (x.length : ℚ) : ℚ) : ℝ))⁻¹ := by
  have h1 : 0 ≤ ((npVar0 x : ℚ) : ℝ) := by
    rw [← npVar0_map_cast]
    exact npVar0_nonneg _
  rw [← mul_inv]
  congr 1
  rw [mul_mul_mul_comm, Real.mul_self_sqrt h1,
    Real.mul_self_sqrt (Nat.cast_nonneg _)]
  push_cast
  ring

theorem autocorrelation_cast (x : List ℚ) :
    (autocorrelation x).map (Rat.cast : ℚ → ℝ) = autocorrelationReal x := by
  simp only [autocorrelationReal, specScaled_eq, npCorrelateFull_map_mul,
    npCorrelateFull_map_cast, scale_sq, autocorrelation, List.length_map]
  conv_rhs => rw [List.map_map, ← List.map_drop]
  conv_lhs => rw [← List.map_drop, List.map_map]
  apply List.map_congr_left
  intro t _
  simp only [Function.comp_apply]
  rw [div_eq_mul_inv, Rat.cast_mul, Rat.cast_inv]

theorem map_range_getD (l : List ℚ) (h : ℚ → ℚ) :
    (List.range l.length).map (fun i => h (l.getD i 0)) = l.map h := by
  induction l with
  | nil => simp
  | cons a t ih =>
    have step : ((List.range t.length).map (fun i => i + 1)).map
        (fun i => h ((a :: t).getD i 0)) =
        (List.range t.length).map (fun i => h (t.getD i 0)) := by
      rw [List.map_map]
      apply List.map_congr_left
      intro i _
      simp only [Function.comp_apply, List.getD_cons_succ]
    rw [List.length_cons, List.range_succ_eq_map, List.map_cons, step, ih,
      List.map_cons, List.getD_cons_zero]

theorem autocorrelation_headD (x : List ℚ) (h1 : 1 ≤ x.length)
    (hv : npVar0 x ≠ 0) : (autocorrelation x).headD 0 = 1 := by
  have hn : ((x.length : ℚ)) ≠ 0 := Nat.cast_ne_zero.mpr (by omega)
  have hd : npVar0 x * (x.length : ℚ) ≠ 0 := mul_ne_zero hv hn
  simp only [autocorrelation]
  have hc : (x.map (fun t => t - npMean x)).length = x.length := List.length_map _ _
  have hlen : (npCorrelateFull (x.map (fun t => t - npMean x))
      (x.map (fun t => t - npMean x))).length = 2 * x.length - 1 := by
    rw [npCorrelateFull_length, hc]
    omega
  rw [List.headD_eq_head?, List.head?_drop]
  have hidx : ((npCorrelateFull (x.map (fun t => t - npMean x))
      (x.map (fun t => t - npMean x))).map
        (fun t => t / (npVar0 x * (x.length : ℚ)))).length / 2 = x.length - 1 := by
    rw [List.length_map, hlen]
    omega
  rw [hidx]
  rw [List.getElem?_map]
  have hcorr : (npCorrelateFull (x.map (fun t => t - npMean x))
      (x.map (fun t => t - npMean x)))[x.length - 1]? =
      some ((x.map (fun t => (t - npMean x) * (t - npMean x))).sum) := by
    rw [npCorrelateFull]
    rw [List.getElem?_map, List.getElem?_range (by rw [hc]; omega)]
    rw [Option.map_some']
    congr 1
    have hcong : ∀ i ∈ List.range (x.map (fun t => t - npMean x)).length,
        (if 0 ≤ (i : ℤ) + ((x.map (fun t => t - npMean x)).length : ℤ) - 1 -
              ((x.length - 1 : ℕ) : ℤ) ∧
            (i : ℤ) + ((x.map (fun t => t - npMean x)).length : ℤ) - 1 -
              ((x.length - 1 : ℕ) : ℤ) <
              ((x.map (fun t => t - npMean x)).length : ℤ)
        then (x.map (fun t => t - npMean x)).getD i 0 *
          (x.map (fun t => t - npMean x)).getD
            ((i : ℤ) + ((x.map (fun t => t - npMean x)).length : ℤ) - 1 -
              ((x.length - 1 : ℕ) : ℤ)).toNat 0
        else 0) =
        (fun u => u * u) ((x.map (fun t => t - npMean x)).getD i 0) := by
      intro i hi
      have hilt : i < x.length := by
        rw [List.length_map] at hi
        exact List.mem_range.mp hi
      have hcast : ((x.length - 1 : ℕ) : ℤ) = (x.length : ℤ) - 1 := by omega
      rw [if_pos (by rw [hc, hcast]; omega)]
      have : ((i : ℤ) + ((x.map (fun t => t - npMean x)).length : ℤ) - 1 -
          ((x.length - 1 : ℕ) : ℤ)).toNat = i := by
        rw [hc, hcast]
        omega
      rw [this]
    rw [List.map_congr_left hcong,
      map_range_getD (x.map (fun t => t - npMean x)) (fun u => u * u)]
    rw [List.map_map]
    rfl
  rw [hcorr]
  rw [Option.map_some', Option.getD_some]
  have hsum : (x.map (fun t => (t - npMean x) * (t - npMean x))).sum =
      npVar0 x * (x.length : ℚ) := by
    rw [npVar0, div_mul_cancel₀ _ hn]
  rw [hsum, div_self hd]

/-- C4: the autocorrelation equals the non negative lag half (a drop of the
first `n - 1` entries) of the full length `2n - 1` cross correlation of the
centered, `np.std(x) * sqrt(n)` scaled sequence with itself; the result has
length `n` and its lag 0 entry equals 1 in exact arithmetic. -/
theorem autocorrelation_normalized_correlation_spec (x : List ℚ)
    (h1 : 1 ≤ x.length) (hv : npVar0 x ≠ 0) :
    (autocorrelation x).map (Rat.cast : ℚ → ℝ) =
      (npCorrelateFull (specScaled x) (specScaled x)).drop (x.length - 1) ∧
    (npCorrelateFull (specScaled x) (specScaled x)).length = 2 * x.length - 1 ∧
    (autocorrelation x).length = x.length ∧
    (autocorrelation x).headD 0 = 1 := by
  have hslen : (specScaled x).length = x.length := by
    simp [specScaled]
  have hflen : (npCorrelateFull (specScaled x) (specScaled x)).length =
      2 * x.length - 1 := by
    rw [npCorrelateFull_length, hslen]
    omega
  refine ⟨?_, hflen, autocorrelation_length x, autocorrelation_headD x h1 hv⟩
  rw [autocorrelation_cast]
  simp only [autocorrelationReal]
  rw [hflen]
  congr 1
  omega

/-- Witness for C4 at the sequence `[1, 2]`. -/
theorem autocorrelation_normalized_correlation_spec_witness :
    (1 ≤ ([1, 2] : List ℚ).length ∧ npVar0 ([1, 2] : List ℚ) ≠ 0) ∧
      ((autocorrelation [1, 2]).map (Rat.cast : ℚ → ℝ) =
        (npCorrelateFull (specScaled [1, 2]) (specScaled [1, 2])).drop
          (([1, 2] : List ℚ).length - 1) ∧
      (npCorrelateFull (specScaled [1, 2]) (specScaled [1, 2])).length =
        2 * ([1, 2] : List ℚ).length - 1 ∧
      (autocorrelation ([1, 2] : List ℚ)).length = ([1, 2] : List ℚ).length ∧
      (autocorrelation ([1, 2] : List ℚ)).headD 0 = 1) :=
  ⟨⟨by decide, by norm_num [npVar0, npMean]⟩,
    autocorrelation_normalized_correlation_spec [1, 2] (by decide)
      (by norm_num [npVar0, npMean])⟩

/-! ### Claim C1: the rhat formula -/

theorem npVar1_eq_specVar (l : List ℚ) (h : 1 ≤ l.length) :
    npVar1 l = specVarUnbiased l := by
  rw [npVar1, specVarUnbiased, Nat.cast_sub h, Nat.cast_one]
  congr 1
  refine congrArg List.sum ?_
  apply List.map_congr_left
  intro t _
  rw [pow_two]
  rfl

theorem _within_eq_specW (chains : List (List ℚ))
    (h : ∀ c ∈ chains, 1 ≤ c.length) : _within chains = specW chains := by
  rw [_within, specW, npMean, List.length_map]
  congr 1
  refine congrArg List.sum ?_
  apply List.map_congr_left
  intro c hc
  exact npVar1_eq_specVar c (h c hc)

theorem _between_eq_specB (chains : List (List ℚ)) (hm : 1 ≤ chains.length) :
    _between chains = specB (shape1 chains) chains := by
  rw [_between, specB]
  congr 1
  rw [npVar1_eq_specVar _ (by rw [List.length_map]; exact hm)]
  rfl

theorem rhatCombine_eq_spec (n : ℕ) (chains : List (List ℚ)) (h : 1 ≤ n) :
    rhatCombine n (specW chains) (specB n chains) = specRhatVal n chains := by
  rw [rhatCombine, specRhatVal, Nat.cast_sub h, Nat.cast_one]

theorem splitChains_mem_length {α : Type} (v : List (List α)) (wu : ℚ)
    (hrect : ∀ c ∈ v, c.length = shape1 v) :
    ∀ c ∈ splitChains v wu, c.length = nSplit v wu := by
  intro c hc
  simp only [splitChains, List.mem_append, List.mem_map] at hc
  simp only [nSplit]
  rcases hc with ⟨d, ⟨e, he, rfl⟩, rfl⟩ | ⟨d, ⟨e, he, rfl⟩, rfl⟩
  · have hv : v ≠ [] := List.ne_nil_of_mem he
    rw [List.length_take, List.length_drop, hrect e he,
      shape1_map_drop v _ hv]
    omega
  · have hv : v ≠ [] := List.ne_nil_of_mem he
    rw [List.length_drop, List.length_drop, hrect e he,
      shape1_map_drop v _ hv]
    omega

theorem shape1_splitChains {α : Type} (v : List (List α)) (wu : ℚ)
    (hv : v ≠ []) : shape1 (splitChains v wu) = nSplit v wu := by
  cases v with
  | nil => exact absurd rfl hv
  | cons h t =>
    simp only [splitChains, nSplit, shape1, List.map_cons, List.cons_append,
      List.headD_cons, List.length_take, List.length_drop]
    omega

theorem splitChains_length {α : Type} (v : List (List α)) (wu : ℚ) :
    (splitChains v wu).length = v.length + v.length := by
  simp [splitChains]

theorem rhat_d2_formula (v : List (List ℚ)) (wu : ℚ) (h2 : 2 ≤ v.length)
    (h0 : 0 ≤ wu) (h1 : wu ≤ 1) (hrect : ∀ c ∈ v, c.length = shape1 v)
    (hn : 2 ≤ nSplit v wu) :
    rhat (.d2 v) wu = .ok (.inl (Real.sqrt
      ((specRhatVal (nSplit v wu) (splitChains v wu) : ℚ) : ℝ))) := by
  have hok := rhatCore_eq_ok v wu h2 h0 h1 hn
  have hv : v ≠ [] := by
    intro h
    rw [h] at h2
    simp at h2
  have hmem := splitChains_mem_length v wu hrect
  have hW : _within (splitChains v wu) = specW (splitChains v wu) :=
    _within_eq_specW _ (fun c hc => by rw [hmem c hc]; omega)
  have hB : _between (splitChains v wu) =
      specB (nSplit v wu) (splitChains v wu) := by
    rw [_between_eq_specB _ (by rw [splitChains_length]; omega),
      shape1_splitChains v wu hv]
  have hcomb : rhatCombine (nSplit v wu) (_within (splitChains v wu))
      (_between (splitChains v wu)) =
      specRhatVal (nSplit v wu) (splitChains v wu) := by
    rw [hW, hB, rhatCombine_eq_spec _ _ (by omega)]
  rw [rhat, rhatQ, hok]
  simp only [Except.map]
  rw [hcomb]

theorem list_sum_apply {p : ℕ} (j : Fin p) (l : List (Fin p → ℚ)) :
    l.sum j = (l.map (fun f => f j)).sum := by
  induction l with
  | nil => rfl
  | cons a t ih =>
    rw [List.sum_cons, List.map_cons, List.sum_cons, Pi.add_apply, ih]

theorem npMean_apply {p : ℕ} (j : Fin p) (l : List (Fin p → ℚ)) :
    npMean l j = npMean (l.map (fun f => f j)) := by
  rw [npMean, npMean, Pi.div_apply, list_sum_apply, List.length_map,
    Pi.natCast_apply]

theorem npVar1_apply {p : ℕ} (j : Fin p) (l : List (Fin p → ℚ)) :
    npVar1 l j = npVar1 (l.map (fun f => f j)) := by
  rw [npVar1, npVar1]
  simp only [Pi.div_apply, Pi.natCast_apply, list_sum_apply, List.map_map,
    List.length_map]
  congr 1
  refine congrArg List.sum ?_
  apply List.map_congr_left
  intro f _
  simp only [Function.comp_apply, Pi.mul_apply, Pi.sub_apply]
  rw [npMean_apply]

theorem shape1_colList {p : ℕ} (j : Fin p) (chains : List (List (Fin p → ℚ))) :
    shape1 (colList j chains) = shape1 chains := by
  cases chains with
  | nil => rfl
  | cons h t => simp [colList, shape1]

theorem _within_apply {p : ℕ} (j : Fin p) (chains : List (List (Fin p → ℚ))) :
    _within chains j = _within (colList j chains) := by
  rw [_within, _within, npMean_apply, List.map_map, colList, List.map_map]
  congr 1
  apply List.map_congr_left
  intro c _
  simp only [Function.comp_apply]
  exact npVar1_apply j c

theorem _between_apply {p : ℕ} (j : Fin p) (chains : List (List (Fin p → ℚ))) :
    _between chains j = _between (colList j chains) := by
  rw [_between, _between, Pi.mul_apply, Pi.natCast_apply, shape1_colList]
  congr 1
  rw [npVar1_apply, List.map_map, colList, List.map_map]
  congr 1
  apply List.map_congr_left
  intro c _
  simp only [Function.comp_apply]
  exact npMean_apply j c

theorem rhatCombine_apply {p : ℕ} (j : Fin p) (n : ℕ) (w b : Fin p → ℚ) :
    rhatCombine n w b j = rhatCombine n (w j) (b j) := by
  simp only [rhatCombine, Pi.add_apply, Pi.div_apply, Pi.mul_apply,
    Pi.natCast_apply]

theorem colList_mem_length {p : ℕ} (j : Fin p)
    (chains : List (List (Fin p → ℚ))) (n : ℕ)
    (h : ∀ c ∈ chains, c.length = n) :
    ∀ c ∈ colList j chains, c.length = n := by
  intro c hc
  obtain ⟨d, hd, rfl⟩ := List.mem_map.mp hc
  rw [List.length_map]
  exact h d hd

theorem rhat_d3_formula (p : ℕ) (v : List (List (Fin p → ℚ))) (wu : ℚ)
    (h2 : 2 ≤ v.length) (h0 : 0 ≤ wu) (h1 : wu ≤ 1)
    (hrect : ∀ c ∈ v, c.length = shape1 v) (hn : 2 ≤ nSplit v wu) :
    rhat (.d3 p v) wu = .ok (.inr ⟨p, fun j => Real.sqrt
      ((specRhatVal (nSplit v wu) (colList j (splitChains v wu)) : ℚ) : ℝ)⟩) := by
  have hok := rhatCore_eq_ok v wu h2 h0 h1 hn
  have hv : v ≠ [] := by
    intro h
    rw [h] at h2
    simp at h2
  have hmem := splitChains_mem_length v wu hrect
  have hfun : (fun j => Real.sqrt
      ((rhatCombine (nSplit v wu) (_within (splitChains v wu))
        (_between (splitChains v wu)) j : ℚ) : ℝ)) =
      (fun j => Real.sqrt
        ((specRhatVal (nSplit v wu) (colList j (splitChains v wu)) : ℚ) : ℝ)) := by
    funext j
    congr 1
    rw [rhatCombine_apply, _within_apply, _between_apply]
    have hWcol : _within (colList j (splitChains v wu)) =
        specW (colList j (splitChains v wu)) := by
      apply _within_eq_specW
      intro c hc
      rw [colList_mem_length j _ _ hmem c hc]
      omega
    have hBcol : _between (colList j (splitChains v wu)) =
        specB (nSplit v wu) (colList j (splitChains v wu)) := by
      rw [_between_eq_specB _ (by rw [colList, List.length_map, splitChains_length]; omega),
        shape1_colList, shape1_splitChains v wu hv]
    rw [hWcol, hBcol, rhatCombine_eq_spec _ _ (by omega)]
  rw [rhat, rhatQ, hok]
  simp only [Except.map]
  rw [hfun]

/-- C1: for a validated rank 2 or rank 3 chains input that passes the post
split length check, `rhat` returns the square root of
`(n - 1) / n + B / (W * n)` where `n` is the split length, and `W` and `B`
are the mean unbiased within chain variance and `n` times the unbiased
variance of the chain means, both over the `2m` split pseudo chains
(`specRhatVal` spells this formula out from the specification); for rank 2
the result is the scalar branch, for rank 3 it is the `p` vector whose entry
`j` applies the same formula to parameter slice `j`. -/
theorem rhat_combines_within_between_spec :
    (∀ (v : List (List ℚ)) (wu : ℚ), 2 ≤ v.length → 0 ≤ wu → wu ≤ 1 →
      (∀ c ∈ v, c.length = shape1 v) → 2 ≤ nSplit v wu →
      rhat (.d2 v) wu = .ok (.inl (Real.sqrt
        ((specRhatVal (nSplit v wu) (splitChains v wu) : ℚ) : ℝ)))) ∧
    (∀ (p : ℕ) (v : List (List (Fin p → ℚ))) (wu : ℚ), 2 ≤ v.length →
      0 ≤ wu → wu ≤ 1 → (∀ c ∈ v, c.length = shape1 v) → 2 ≤ nSplit v wu →
      rhat (.d3 p v) wu = .ok (.inr ⟨p, fun j => Real.sqrt
        ((specRhatVal (nSplit v wu) (colList j (splitChains v wu)) : ℚ) : ℝ)⟩)) :=
  ⟨fun v wu h2 h0 h1 hrect hn => rhat_d2_formula v wu h2 h0 h1 hrect hn,
   fun p v wu h2 h0 h1 hrect hn => rhat_d3_formula p v wu h2 h0 h1 hrect hn⟩

/-- Witness for C1 on a concrete 2 by 4 rank 2 input and a 2 by 4 by 1
rank 3 input with no warm up. -/
theorem rhat_combines_within_between_spec_witness :
    (2 ≤ nSplit ([[1, 2, 3, 4], [5, 4, 3, 2]] : List (List ℚ)) 0) ∧
    rhat (.d2 [[1, 2, 3, 4], [5, 4, 3, 2]]) 0 = .ok (.inl (Real.sqrt
      ((specRhatVal (nSplit ([[1, 2, 3, 4], [5, 4, 3, 2]] : List (List ℚ)) 0)
        (splitChains ([[1, 2, 3, 4], [5, 4, 3, 2]] : List (List ℚ)) 0) : ℚ) : ℝ)))
      ∧
    rhat (.d3 1 [[fun _ => 1, fun _ => 2, fun _ => 3, fun _ => 4],
        [fun _ => 5, fun _ => 4, fun _ => 3, fun _ => 2]]) 0 =
      .ok (.inr ⟨1, fun j => Real.sqrt
        ((specRhatVal
          (nSplit ([[fun _ => 1, fun _ => 2, fun _ => 3, fun _ => 4],
            [fun _ => 5, fun _ => 4, fun _ => 3, fun _ => 2]] :
              List (List (Fin 1 → ℚ))) 0)
          (colList j (splitChains
            ([[fun _ => 1, fun _ => 2, fun _ => 3, fun _ => 4],
              [fun _ => 5, fun _ => 4, fun _ => 3, fun _ => 2]] :
                List (List (Fin 1 → ℚ))) 0)) : ℚ) : ℝ)⟩) :=
  ⟨by simp [nSplit, trimCount, shape1],
   rhat_combines_within_between_spec.1 [[1, 2, 3, 4], [5, 4, 3, 2]] 0
     (by decide) (by decide) (by decide) (by decide)
     (by simp [nSplit, trimCount, shape1]),
   rhat_combines_within_between_spec.2 1
     [[fun _ => 1, fun _ => 2, fun _ => 3, fun _ => 4],
      [fun _ => 5, fun _ => 4, fun _ => 3, fun _ => 2]] 0
     (by decide) (by decide) (by decide) (by decide)
     (by simp [nSplit, trimCount, shape1])⟩
